import Mathlib

/-!
Shallow embedding of the `pkg/script` package of jw-dev/tombflow (Go).

Conventions of the embedding:
* Go byte and `uint16` values are modelled as `Nat` (all source values are
  unsigned and stay below `2^16`; arithmetic that can wrap in Go is written
  with an explicit `% 65536`).
* Go strings are byte strings; they are modelled as `List Nat` of byte values.
* A sequential `io.Reader` is modelled as the list of bytes remaining.
  `binary.Read` discards its error in the source, so a short read leaves the
  destination at its zero value and consumes the rest of the stream; this is
  modelled explicitly in `readU16List`, `readU16`, `readBytes`, `readHeader`.
* Go runtime panics (out-of-range slice bounds and out-of-range indexing)
  abort the program; a function that can panic is modelled with `Option`,
  where `none` is the panic.
* `multiByteArray.Strings` in the source XORs each record slice in place;
  the slices alias the `data` backing array, so the mutation is visible to
  later iterations and to the caller.  The embedding threads the mutated
  data through the loop and returns the mutated `multiByteArray`.
-/

namespace Tombflow

/-- Go byte strings (`string` / `[]byte` / `[]uint8`) as lists of byte values. -/
abbrev Bytes := List Nat

/-- Byte values of a Lean string literal, used to transcribe the Go string
literals of the source. -/
def strBytes (s : String) : Bytes := s.toList.map Char.toNat

/-- Little-endian 16-bit value from two bytes. -/
def u16le (lo hi : Nat) : Nat := lo + 256 * hi

/-- Model of `binary.LittleEndian.Uint16` over consecutive byte pairs: the word array
`u16` built by `multiByteArray.U16` (`len(m.data)/2` words; an odd trailing
byte is ignored). -/
def decodeU16s : Bytes → List Nat
  | lo :: hi :: rest => u16le lo hi :: decodeU16s rest
  | _ => []

/-- Go slice expression `l[a:b]`: valid iff `a ≤ b ≤ len l`, otherwise a
runtime panic (`none`). -/
def goSlice (l : List Nat) (a b : Nat) : Option (List Nat) :=
  if a ≤ b ∧ b ≤ l.length then some ((l.drop a).take (b - a)) else none

/-- Go slice expression `l[a:]`: valid iff `a ≤ len l`, otherwise a runtime
panic (`none`). -/
def goSliceFrom (l : List Nat) (a : Nat) : Option (List Nat) :=
  if a ≤ l.length then some (l.drop a) else none

/-- Byte-wise XOR of a buffer with the single-byte key `k`
(`bytes[i] ^= xor` over a whole slice). -/
def xorBytes (k : Nat) (bs : List Nat) : List Nat := bs.map fun b => b ^^^ k

/-- Writing a buffer `bs` over `data` starting at position `a`: the in-place
update performed by `bytes[i] ^= xor` on the slice `data[a : a+len bs]`. -/
def writeRegion (data : List Nat) (a : Nat) (bs : List Nat) : List Nat :=
  data.take a ++ bs ++ data.drop (a + bs.length)

/-- The offset-table pair read by `readMultiByteArray`: `offsets` are the
`uint16` byte offsets, `data` the payload blob. -/
structure multiByteArray where
  offsets : List Nat
  data : Bytes
  deriving DecidableEq, Repr

/-- The loop body of `multiByteArray.Strings` (source `script.go:301-322`):
for each offset, slice `data[offset:to]` (or `data[offset:]` for the last),
XOR the slice in place when `xor > 0`, and append the resulting string.
The mutated data is threaded through because the Go slices alias `m.data`. -/
def stringsLoop (xor : Nat) : List Nat → List Nat → Option (List Bytes × List Nat)
  | [], data => some ([], data)
  | [a], data =>
    match goSliceFrom data a with
    | none => none
    | some bs =>
      let bs' := if xor > 0 then xorBytes xor bs else bs
      let data' := if xor > 0 then writeRegion data a bs' else data
      some ([bs'], data')
  | a :: b :: rest, data =>
    match goSlice data a b with
    | none => none
    | some bs =>
      let bs' := if xor > 0 then xorBytes xor bs else bs
      let data' := if xor > 0 then writeRegion data a bs' else data
      match stringsLoop xor (b :: rest) data' with
      | none => none
      | some (strs, d) => some (bs' :: strs, d)

/-- Model of `func (m multiByteArray) Strings(xor byte) []string`.  Returns the record
strings and the `multiByteArray` as the caller observes it afterwards (its
backing array is mutated in place when `xor > 0`); `none` models the runtime
panic on an out-of-range slice. -/
def multiByteArray.Strings (m : multiByteArray) (xor : Nat) :
    Option (List Bytes × multiByteArray) :=
  (stringsLoop xor m.offsets m.data).map fun p => (p.1, ⟨m.offsets, p.2⟩)

/-- The chunking loop of `multiByteArray.U16` (source `script.go:324-343`):
slices the word array `u16` at `offset/2` boundaries (Go integer division,
which floors an odd offset). -/
def u16Chunks (u : List Nat) : List Nat → Option (List (List Nat))
  | [] => some []
  | [a] =>
    match goSliceFrom u (a / 2) with
    | none => none
    | some c => some [c]
  | a :: b :: rest =>
    match goSlice u (a / 2) (b / 2) with
    | none => none
    | some c =>
      match u16Chunks u (b :: rest) with
      | none => none
      | some cs => some (c :: cs)

/-- Model of `func (m multiByteArray) U16() [][]uint16`; `none` models the runtime
panic on an out-of-range slice. -/
def multiByteArray.U16 (m : multiByteArray) : Option (List (List Nat)) :=
  u16Chunks (decodeU16s m.data) m.offsets

/-- Table `opcodeHasArgument` (source `script.go:107-121`): the opcodes
`OpPicture, OpFmv, OpLevel, OpCine, OpDemo, OpJumpToSequence, OpTrack,
OpLoadPic, OpCutAngle, OpNoFloor, OpStartInv, OpStartAnim, OpSecrets`. -/
def opcodeHasArgument : List Nat := [0, 3, 4, 5, 7, 8, 10, 12, 16, 17, 18, 19, 20]

/-- Model of `func (o Opcode) hasArg() bool`: linear scan of `opcodeHasArgument`. -/
def hasArg (o : Nat) : Bool := opcodeHasArgument.contains o

/-- A decoded gameflow instruction (`Command{Op, Arg}`). -/
structure Command where
  Op : Nat
  Arg : Nat
  deriving DecidableEq, Repr

/-- The per-chunk scanning loop of `readSequenceArray`
(source `reader.go:85-99`): each word is an opcode; if it is classified as
argument-bearing the following word is consumed as the argument (advance by
two), else `Arg` is 0 (advance by one).  An argument-bearing opcode at the
last word makes Go read `chunk[i+1]` out of range: a runtime panic, `none`. -/
def decodeChunk : List Nat → Option (List Command)
  | [] => some []
  | w :: rest =>
    if hasArg w then
      match rest with
      | [] => none
      | a :: rest' => (decodeChunk rest').map fun s => { Op := w, Arg := a } :: s
    else
      (decodeChunk rest).map fun s => { Op := w, Arg := 0 } :: s

/-! ### The byte reader and `binary.Read`

The source never checks the error returned by `binary.Read`: a short read
leaves the destination at its Go zero value and consumes what remains of
the stream (`io.ReadFull` reads everything available before reporting
`ErrUnexpectedEOF`).  Each `read*` helper returns the value and the
remaining stream. -/

/-- Model of `binary.Read` into `make([]uint16, n)`: little-endian decode of `2n`
bytes, or `n` zero values (and an ignored error) on a short stream. -/
def readU16List (n : Nat) (s : Bytes) : List Nat × Bytes :=
  if 2 * n ≤ s.length then (decodeU16s (s.take (2 * n)), s.drop (2 * n))
  else (List.replicate n 0, [])

/-- Model of `binary.Read` into a `uint16` variable initialized to 0. -/
def readU16 (s : Bytes) : Nat × Bytes :=
  if 2 ≤ s.length then (u16le (s.getD 0 0) (s.getD 1 0), s.drop 2)
  else (0, [])

/-- Model of `binary.Read` into `make([]uint8, n)` (zero-filled on a short stream). -/
def readBytes (n : Nat) (s : Bytes) : Bytes × Bytes :=
  if n ≤ s.length then (s.take n, s.drop n)
  else (List.replicate n 0, [])

/-- The named fields of the fixed 390-byte `header` record
(source `script.go:254-281`); the four `_` padding regions are skipped. -/
structure header where
  Version : Nat
  Description : Bytes
  GameflowSize : Nat
  FirstOption : Nat
  TitleReplace : Nat
  OnDeathDemoMode : Nat
  OnDeathInGame : Nat
  DemoTime : Nat
  OnDemoInterrupt : Nat
  OnDemoEnd : Nat
  NumLevels : Nat
  NumChapterScreens : Nat
  NumTitles : Nat
  NumFmvs : Nat
  NumCutscenes : Nat
  NumDemoLevels : Nat
  TitleSoundId : Nat
  SingleLevel : Nat
  Flags : Nat
  XorKey : Nat
  LanguageId : Nat
  SecretSoundId : Nat
  deriving DecidableEq, Repr

/-- Little-endian `uint16` at byte position `p`. -/
def u16At (b : Bytes) (p : Nat) : Nat := u16le (b.getD p 0) (b.getD (p + 1) 0)

/-- Little-endian 32-bit value at byte position `p` (the header's `uint32`
and `int32` fields, kept as their raw little-endian value). -/
def u32At (b : Bytes) (p : Nat) : Nat :=
  b.getD p 0 + 256 * b.getD (p + 1) 0 + 65536 * b.getD (p + 2) 0 +
    16777216 * b.getD (p + 3) 0

/-- The Go zero value of `header` (what `binary.Read` leaves behind when the
stream is too short, since its error is discarded). -/
def zeroHeader : header :=
  { Version := 0, Description := List.replicate 256 0, GameflowSize := 0,
    FirstOption := 0, TitleReplace := 0, OnDeathDemoMode := 0,
    OnDeathInGame := 0, DemoTime := 0, OnDemoInterrupt := 0, OnDemoEnd := 0,
    NumLevels := 0, NumChapterScreens := 0, NumTitles := 0, NumFmvs := 0,
    NumCutscenes := 0, NumDemoLevels := 0, TitleSoundId := 0, SingleLevel := 0,
    Flags := 0, XorKey := 0, LanguageId := 0, SecretSoundId := 0 }

/-- Field extraction from the 390 header bytes, at the little-endian byte
positions fixed by the struct layout (padding regions `[36]byte` at 290,
`[32]byte` at 342, `[6]byte` at 376, `[4]byte` at 386 are read past). -/
def decodeHeaderBytes (b : Bytes) : header :=
  { Version := u32At b 0
    Description := (b.drop 4).take 256
    GameflowSize := u16At b 260
    FirstOption := u32At b 262
    TitleReplace := u32At b 266
    OnDeathDemoMode := u32At b 270
    OnDeathInGame := u32At b 274
    DemoTime := u32At b 278
    OnDemoInterrupt := u32At b 282
    OnDemoEnd := u32At b 286
    NumLevels := u16At b 326
    NumChapterScreens := u16At b 328
    NumTitles := u16At b 330
    NumFmvs := u16At b 332
    NumCutscenes := u16At b 334
    NumDemoLevels := u16At b 336
    TitleSoundId := u16At b 338
    SingleLevel := u16At b 340
    Flags := u16At b 374
    XorKey := b.getD 382 0
    LanguageId := b.getD 383 0
    SecretSoundId := u16At b 384 }

/-- Model of `func readHeader(r io.Reader) *header`: one `binary.Read` of the whole
390-byte record; on a short stream the error is discarded and the
zero-valued header is returned. -/
def readHeader (s : Bytes) : header × Bytes :=
  if 390 ≤ s.length then (decodeHeaderBytes (s.take 390), s.drop 390)
  else (zeroHeader, [])

/-- Model of `func readMultiByteArray(r io.Reader, count uint16) *multiByteArray`:
`count` offsets, one size word, then the `size`-byte blob. -/
def readMultiByteArray (count : Nat) (s : Bytes) : multiByteArray × Bytes :=
  let p1 := readU16List count s
  let p2 := readU16 p1.2
  let p3 := readBytes p2.1 p2.2
  ({ offsets := p1.1, data := p3.1 }, p3.2)

/-- Model of `func readStringArray(r io.Reader, count uint16, xor byte) []string`:
reads a multi-byte array and takes its `Strings` view (the mutated array is
discarded). -/
def readStringArray (count xor : Nat) (s : Bytes) :
    Option (List Bytes × Bytes) :=
  let p := readMultiByteArray count s
  (p.1.Strings xor).map fun q => (q.1, p.2)

/-- Model of `func readSequenceArray(r io.Reader, count uint16) []Sequence`: reads a
multi-byte array, takes its `U16` view and scans every chunk. -/
def readSequenceArray (count : Nat) (s : Bytes) :
    Option (List (List Command) × Bytes) :=
  let p := readMultiByteArray count s
  match p.1.U16 with
  | none => none
  | some chunks =>
    match chunks.mapM decodeChunk with
    | none => none
    | some seqs => some (seqs, p.2)

/-- Model of `func readDemoLevels(r io.Reader, count uint16) []uint16`. -/
def readDemoLevels (count : Nat) (s : Bytes) : List Nat × Bytes :=
  readU16List count s

/-- Model of `func readGameStrings(r io.Reader, xor byte) []string`: a 16-bit count
read inline, then a string array of that count. -/
def readGameStrings (xor : Nat) (s : Bytes) : Option (List Bytes × Bytes) :=
  let p := readU16 s
  readStringArray p.1 xor p.2

/-- A `Level` record; the defaults are the Go zero values assigned by
`make([]Level, len(names))`. -/
structure Level where
  Name : Bytes := []
  Path : Bytes := []
  Chapter : Bytes := []
  Flow : List Command := []
  IsDemo : Bool := false
  Puzzles : List Bytes := [[], [], [], []]
  Pickups : List Bytes := [[], []]
  Keys : List Bytes := [[], [], [], []]
  deriving DecidableEq, Repr

/-- The Go zero value of `Level`. -/
def defLevel : Level := {}

/-- One iteration of the first `joinLevels` loop: the level at index `i`
with name, and path/chapter/flow copied when the corresponding table has an
entry (`flow` uses index `i+1`). -/
def mkLevel (paths chaps : List Bytes) (flow : List (List Command)) (i : Nat)
    (name : Bytes) : Level :=
  { Name := name
    Path := if i < paths.length then paths.getD i [] else []
    Chapter := if i < chaps.length then chaps.getD i [] else []
    Flow := if i + 1 < flow.length then flow.getD (i + 1) [] else [] }

/-- The first loop of `joinLevels` (source `script.go:403-415`), building one
`Level` per name with running index `i`. -/
def buildLevels (paths chaps : List Bytes) (flow : List (List Command)) :
    Nat → List Bytes → List Level
  | _, [] => []
  | i, name :: rest =>
    mkLevel paths chaps flow i name :: buildLevels paths chaps flow (i + 1) rest

/-- Assignment `l[demo].IsDemo = true`: set the demo flag of the level at index `d`. -/
def setDemo : List Level → Nat → List Level
  | [], _ => []
  | lv :: rest, 0 => { lv with IsDemo := true } :: rest
  | lv :: rest, d + 1 => lv :: setDemo rest d

/-- The second loop of `joinLevels` (source `script.go:417-421`): each demo
index in range sets the flag; an out-of-range index is skipped. -/
def markDemos : List Level → List Nat → List Level
  | l, [] => l
  | l, d :: rest => markDemos (if d < l.length then setDemo l d else l) rest

/-- Model of `func joinLevels(names, paths, chaps, flow, demos) []Level`
(source `script.go:400-424`). -/
def joinLevels (names paths chaps : List Bytes) (flow : List (List Command))
    (demos : List Nat) : List Level :=
  markDemos (buildLevels paths chaps flow 0 names) demos

/-- The root `Script` aggregate; `Lang` is never assigned by `Read` and
keeps its zero value. -/
structure Script where
  Version : Nat
  Description : Bytes
  Lang : Nat := 0
  Levels : List Level
  Titles : List Bytes
  Fmvs : List Bytes
  Cutscenes : List Bytes
  GameStrings : List Bytes
  ExtraStrings : List Bytes
  deriving DecidableEq, Repr

/-- Assignment `levels[j].Puzzles[i] = puzzles[j]`. -/
def setPuzzle (i : Nat) (lv : Level) (v : Bytes) : Level :=
  { lv with Puzzles := lv.Puzzles.set i v }

/-- Assignment `levels[j].Pickups[i] = puzzles[j]`. -/
def setPickup (i : Nat) (lv : Level) (v : Bytes) : Level :=
  { lv with Pickups := lv.Pickups.set i v }

/-- Assignment `levels[j].Keys[i] = puzzles[j]`. -/
def setKey (i : Nat) (lv : Level) (v : Bytes) : Level :=
  { lv with Keys := lv.Keys.set i v }

/-- The inner scatter loop `for j ...: levels[j].X[i] = strs[j]`; both lists
have exactly `NumLevels` entries by construction, so the pointwise update
covers the whole range of the Go loop. -/
def scatter (upd : Level → Bytes → Level) : List Level → List Bytes → List Level
  | lv :: lrest, v :: vrest => upd lv v :: scatter upd lrest vrest
  | lvs, _ => lvs

/-- One group of slot-filling passes of `Read`: for each slot index, read a
string array of `count` records and scatter it into the levels. -/
def slotLoop (upd : Nat → Level → Bytes → Level) (count xor : Nat) :
    List Nat → List Level → Bytes → Option (List Level × Bytes)
  | [], levels, s => some (levels, s)
  | i :: rest, levels, s =>
    match readStringArray count xor s with
    | none => none
    | some (strs, s1) =>
      slotLoop upd count xor rest (scatter (upd i) levels strs) s1

/-- Model of `func Read(r io.Reader) *Script` (source `reader.go:8-53`).  `none`
models a runtime panic in one of the decoding steps; note that a truncated
stream is NOT a failure, because every `binary.Read` error is discarded. -/
def Read (s : Bytes) : Option Script := do
  let (head, s0) := readHeader s
  let (levelNames, s1) ← readStringArray head.NumLevels head.XorKey s0
  let (chapterPaths, s2) ← readStringArray head.NumChapterScreens head.XorKey s1
  let (titlePaths, s3) ← readStringArray head.NumTitles head.XorKey s2
  let (fmvPaths, s4) ← readStringArray head.NumFmvs head.XorKey s3
  let (levelPaths, s5) ← readStringArray head.NumLevels head.XorKey s4
  let (cutscenePaths, s6) ← readStringArray head.NumCutscenes head.XorKey s5
  let (gameFlow, s7) ← readSequenceArray ((head.NumLevels + 1) % 65536) s6
  let (demoLevels, s8) := readDemoLevels head.NumDemoLevels s7
  let (gameStrings, s9) ← readGameStrings head.XorKey s8
  let (extraStrings, s10) ← readStringArray 41 head.XorKey s9
  let levels := joinLevels levelNames levelPaths chapterPaths gameFlow demoLevels
  let (levels, s11) ← slotLoop setPuzzle head.NumLevels head.XorKey [0, 1, 2, 3] levels s10
  let (levels, s12) ← slotLoop setPickup head.NumLevels head.XorKey [0, 1] levels s11
  let (levels, _) ← slotLoop setKey head.NumLevels head.XorKey [0, 1, 2, 3] levels s12
  some { Version := head.Version, Description := head.Description,
         Levels := levels, Titles := titlePaths, Fmvs := fmvPaths,
         Cutscenes := cutscenePaths, GameStrings := gameStrings,
         ExtraStrings := extraStrings }

/-- Table `tOpcodes` (source `script.go:60-84`): display names of the opcodes. -/
def tOpcodes : List Bytes :=
  [strBytes "Picture", strBytes "List Start", strBytes "List End",
   strBytes "Display FMV", strBytes "Play Level", strBytes "Display Cutscene",
   strBytes "End Level", strBytes "Play Demo", strBytes "Jump to Sequence",
   strBytes "End Sequence", strBytes "Play Soundtrack", strBytes "Sunset",
   strBytes "Load Pic", strBytes "Deadly Water", strBytes "Remove Weapons",
   strBytes "Game Complete", strBytes "Set Cutscene Angle", strBytes "No Floor",
   strBytes "Start Inv", strBytes "Start Animation", strBytes "Secrets",
   strBytes "Kill to Complete", strBytes "Remove Ammo"]

/-- Model of `func (o Opcode) String() string`. -/
def opcodeString (o : Nat) : Bytes :=
  if o < tOpcodes.length then tOpcodes.getD o [] else strBytes "Unknown"

/-- Space character of the format strings. -/
def sp : Bytes := [32]

/-- Single-quote character (byte 39) of the `%v` format strings. -/
def sq : Bytes := [39]

/-- Decimal rendering of a numeric `%v` argument. -/
def natDec (n : Nat) : Bytes := strBytes (Nat.repr n)

/-- Model of `func (s Script) FormatCommand(c Command) string`
(source `script.go:235-252`).  `none` models the runtime index-out-of-range
failure when an argument indexes past the relevant table. -/
def FormatCommand (s : Script) (c : Command) : Option Bytes :=
  if hasArg c.Op = false then some (opcodeString c.Op)
  else if c.Op = 12 then
    if c.Arg < s.Levels.length then
      some (opcodeString c.Op ++ sp ++ sq ++
        (s.Levels.getD c.Arg defLevel).Chapter ++ sq)
    else none
  else if c.Op = 3 then
    if c.Arg < s.Fmvs.length then
      some (opcodeString c.Op ++ sp ++ sq ++ s.Fmvs.getD c.Arg [] ++ sq)
    else none
  else if c.Op = 4 then
    if c.Arg < s.Levels.length then
      some (opcodeString c.Op ++ sp ++ sq ++
        (s.Levels.getD c.Arg defLevel).Path ++ sq ++ sp ++ strBytes "(" ++
        (s.Levels.getD c.Arg defLevel).Name ++ strBytes ")")
    else none
  else if c.Op = 5 then
    if c.Arg < s.Cutscenes.length then
      some (opcodeString c.Op ++ sp ++ sq ++ s.Cutscenes.getD c.Arg [] ++ sq)
    else none
  else some (opcodeString c.Op ++ sp ++ natDec c.Arg)


/-! ### Closed-form characterization of the `Strings` loop

`stringsLoop` succeeds exactly when every Go slice expression it evaluates is
in bounds (`offsetsOK`), and in that case the records it returns and the
final state of the backing array have direct descriptions in terms of the
original data (`recordsSpec`, `dataSpec`).  These are proof-side definitions;
the executable embedding above is the authority. -/

/-- Bounds conditions of the slice expressions evaluated by the `Strings`
loop: each non-final record needs `offset ≤ next ≤ len`, the final record
needs `offset ≤ len`. -/
def offsetsOK : List Nat → Nat → Bool
  | [], _ => true
  | [a], n => decide (a ≤ n)
  | a :: b :: rest, n => decide (a ≤ b) && decide (b ≤ n) && offsetsOK (b :: rest) n

/-- The record slices of the original data, each XORed with `k`
(`xorBytes 0` is the identity). -/
def recordsSpec (k : Nat) : List Nat → List Nat → List Bytes
  | [], _ => []
  | [a], data => [xorBytes k (data.drop a)]
  | a :: b :: rest, data =>
    xorBytes k ((data.drop a).take (b - a)) :: recordsSpec k (b :: rest) data

/-- The backing array after the `Strings` loop: everything from the first
offset on is XORed with `k` (for `k = 0` this is the original data). -/
def dataSpec (k : Nat) (offs : List Nat) (data : List Nat) : List Nat :=
  match offs with
  | [] => data
  | a :: _ => data.take a ++ xorBytes k (data.drop a)

theorem xorBytes_zero (l : List Nat) : xorBytes 0 l = l := by
  simp [xorBytes, Nat.xor_zero]

theorem xorBytes_length (k : Nat) (l : List Nat) : (xorBytes k l).length = l.length := by
  simp [xorBytes]

theorem xorBytes_append (k : Nat) (l₁ l₂ : List Nat) :
    xorBytes k (l₁ ++ l₂) = xorBytes k l₁ ++ xorBytes k l₂ := by
  simp [xorBytes]

theorem xorBytes_xorBytes (k : Nat) (l : List Nat) : xorBytes k (xorBytes k l) = l := by
  simp only [xorBytes, List.map_map]
  have h : ((fun b => b ^^^ k) ∘ fun b : Nat => b ^^^ k) = fun b : Nat => b := by
    funext b
    simp [Nat.xor_assoc, Nat.xor_self, Nat.xor_zero]
  rw [h]
  exact List.map_id' l

theorem xorBytes_drop (k : Nat) (l : List Nat) (n : Nat) :
    (xorBytes k l).drop n = xorBytes k (l.drop n) := by
  simp [xorBytes, List.map_drop]

theorem xorBytes_take (k : Nat) (l : List Nat) (n : Nat) :
    (xorBytes k l).take n = xorBytes k (l.take n) := by
  simp [xorBytes, List.map_take]

theorem slice_append_drop (data : List Nat) (a b : Nat) (hab : a ≤ b) :
    (data.drop a).take (b - a) ++ data.drop b = data.drop a := by
  have h : (data.drop a).drop (b - a) = data.drop b := by
    rw [List.drop_drop, Nat.add_sub_cancel' hab]
  calc (data.drop a).take (b - a) ++ data.drop b
      = (data.drop a).take (b - a) ++ (data.drop a).drop (b - a) := by rw [h]
    _ = data.drop a := List.take_append_drop _ _

theorem offsetsOK_head_le {a : Nat} {tl : List Nat} {n : Nat}
    (h : offsetsOK (a :: tl) n = true) : a ≤ n := by
  induction tl generalizing a with
  | nil => simpa [offsetsOK] using h
  | cons b rest ih =>
    simp only [offsetsOK, Bool.and_eq_true, decide_eq_true_eq] at h
    exact le_trans h.1.1 (ih h.2)

/-- The mutated region written by one step: for `a ≤ b ≤ len`, the data
after XORing the slice `[a, b)` in place. -/
theorem writeRegion_eq (data : List Nat) (a b k : Nat) (hab : a ≤ b)
    (hb : b ≤ data.length) :
    writeRegion data a (xorBytes k ((data.drop a).take (b - a))) =
      data.take a ++ xorBytes k ((data.drop a).take (b - a)) ++ data.drop b := by
  have hlen : (xorBytes k ((data.drop a).take (b - a))).length = b - a := by
    rw [xorBytes_length, List.length_take, List.length_drop]
    exact min_eq_left (Nat.sub_le_sub_right hb a)
  rw [writeRegion, hlen, Nat.add_sub_cancel' hab, List.append_assoc]

/-- Congruence: `recordsSpec` only reads the data from the first offset on. -/
theorem recordsSpec_congr (k : Nat) :
    ∀ (offs : List Nat) (d₁ d₂ : List Nat) (n : Nat),
      offsetsOK offs n = true →
      d₁.drop (offs.headD 0) = d₂.drop (offs.headD 0) →
      recordsSpec k offs d₁ = recordsSpec k offs d₂ := by
  intro offs
  induction offs with
  | nil => intro d₁ d₂ n _ _; rfl
  | cons a tl ih =>
    intro d₁ d₂ n hok hd
    cases tl with
    | nil => simp only [recordsSpec]; rw [List.headD_cons] at hd; rw [hd]
    | cons b rest =>
      rw [List.headD_cons] at hd
      simp only [offsetsOK, Bool.and_eq_true, decide_eq_true_eq] at hok
      obtain ⟨⟨h1, _⟩, hok'⟩ := hok
      have hdb : d₁.drop b = d₂.drop b := by
        have e : ∀ d : List Nat, d.drop b = (d.drop a).drop (b - a) := by
          intro d; rw [List.drop_drop, Nat.add_sub_cancel' h1]
        rw [e d₁, e d₂, hd]
      simp only [recordsSpec]
      rw [hd, ih d₁ d₂ n hok' (by rw [List.headD_cons]; exact hdb)]

/-- Master lemma: the `Strings` loop equals its closed form. -/
theorem stringsLoop_eq (k : Nat) :
    ∀ (offs : List Nat) (data : List Nat),
      stringsLoop k offs data =
        if offsetsOK offs data.length = true then
          some (recordsSpec k offs data, dataSpec k offs data)
        else none := by
  intro offs
  induction offs with
  | nil => intro data; simp [stringsLoop, offsetsOK, recordsSpec, dataSpec]
  | cons a tl ih =>
    intro data
    cases tl with
    | nil =>
      by_cases ha : a ≤ data.length
      · rcases Nat.eq_zero_or_pos k with hk | hk
        · subst hk
          simp [stringsLoop, goSliceFrom, ha, offsetsOK, recordsSpec, dataSpec,
            xorBytes_zero, List.take_append_drop]
        · have hwr : writeRegion data a (xorBytes k (data.drop a)) =
              data.take a ++ xorBytes k (data.drop a) := by
            have hlen : (xorBytes k (data.drop a)).length = data.length - a := by
              rw [xorBytes_length, List.length_drop]
            rw [writeRegion, hlen, Nat.add_sub_cancel' ha,
              List.drop_length, List.append_nil]
          simp [stringsLoop, goSliceFrom, ha, offsetsOK, recordsSpec, dataSpec,
            hwr, hk]
      · simp [stringsLoop, goSliceFrom, ha, offsetsOK]
    | cons b rest =>
      by_cases hab : a ≤ b ∧ b ≤ data.length
      · obtain ⟨h1, h2⟩ := hab
        have hsq : goSlice data a b = some ((data.drop a).take (b - a)) := by
          rw [goSlice, if_pos ⟨h1, h2⟩]
        have hokTail : offsetsOK (a :: b :: rest) data.length = true ↔
            offsetsOK (b :: rest) data.length = true := by
          simp [offsetsOK, h1, h2]
        rcases Nat.eq_zero_or_pos k with hk | hk
        · -- XOR key 0: no mutation, the recursion sees the original data
          subst hk
          have hstep : stringsLoop 0 (a :: b :: rest) data =
              match stringsLoop 0 (b :: rest) data with
              | none => none
              | some (strs, d) => some ((data.drop a).take (b - a) :: strs, d) := by
            simp only [stringsLoop, hsq, Nat.lt_irrefl, if_false]
          rw [hstep, ih data]
          by_cases hok : offsetsOK (b :: rest) data.length = true
          · rw [if_pos hok, if_pos (hokTail.mpr hok)]
            simp only [recordsSpec, dataSpec, xorBytes_zero]
            rw [List.take_append_drop, List.take_append_drop]
          · rw [if_neg hok, if_neg (fun hcon => hok (hokTail.mp hcon))]
        · -- XOR key positive: the slice is XORed in place before recursing
          have hstep : stringsLoop k (a :: b :: rest) data =
              match stringsLoop k (b :: rest)
                  (data.take a ++ xorBytes k ((data.drop a).take (b - a)) ++
                    data.drop b) with
              | none => none
              | some (strs, d) =>
                some (xorBytes k ((data.drop a).take (b - a)) :: strs, d) := by
            simp only [stringsLoop, hsq, hk, if_true]
            rw [writeRegion_eq data a b k h1 h2]
          have hpre : (data.take a ++
              xorBytes k ((data.drop a).take (b - a))).length = b := by
            rw [List.length_append, List.length_take, xorBytes_length,
              List.length_take, List.length_drop,
              min_eq_left (le_trans h1 h2),
              min_eq_left (Nat.sub_le_sub_right h2 a), Nat.add_sub_cancel' h1]
          have hlen' : (data.take a ++
              xorBytes k ((data.drop a).take (b - a)) ++
              data.drop b).length = data.length := by
            rw [List.length_append, hpre, List.length_drop,
              Nat.add_sub_cancel' h2]
          have hdropb : (data.take a ++
              xorBytes k ((data.drop a).take (b - a)) ++
              data.drop b).drop b = data.drop b := List.drop_left' hpre
          have htakeb : (data.take a ++
              xorBytes k ((data.drop a).take (b - a)) ++
              data.drop b).take b =
              data.take a ++ xorBytes k ((data.drop a).take (b - a)) :=
            List.take_left' hpre
          rw [hstep, ih _, hlen']
          by_cases hok : offsetsOK (b :: rest) data.length = true
          · rw [if_pos hok, if_pos (hokTail.mpr hok)]
            have hRecs : recordsSpec k (b :: rest)
                (data.take a ++ xorBytes k ((data.drop a).take (b - a)) ++
                  data.drop b) = recordsSpec k (b :: rest) data := by
              apply recordsSpec_congr k (b :: rest) _ data data.length hok
              rw [List.headD_cons]
              exact hdropb
            simp only [recordsSpec, dataSpec]
            rw [hRecs, htakeb, hdropb, List.append_assoc, ← xorBytes_append,
              slice_append_drop data a b h1]
          · rw [if_neg hok, if_neg (fun hcon => hok (hokTail.mp hcon))]
      · have hsq : goSlice data a b = none := by rw [goSlice, if_neg hab]
        have hok : ¬ offsetsOK (a :: b :: rest) data.length = true := by
          intro hcon
          simp only [offsetsOK, Bool.and_eq_true, decide_eq_true_eq] at hcon
          exact hab ⟨hcon.1.1, hcon.1.2⟩
        simp only [stringsLoop, hsq, if_neg hok]

theorem recordsSpec_length (k : Nat) :
    ∀ (offs : List Nat) (data : List Nat),
      (recordsSpec k offs data).length = offs.length := by
  intro offs
  induction offs with
  | nil => intro data; rfl
  | cons a tl ih =>
    intro data
    cases tl with
    | nil => rfl
    | cons b rest => simp only [recordsSpec, List.length_cons, ih data]

theorem recordsSpec_join (k : Nat) :
    ∀ (offs : List Nat) (data : List Nat),
      offsetsOK offs data.length = true → offs ≠ [] →
      (recordsSpec k offs data).flatten = xorBytes k (data.drop (offs.headD 0)) := by
  intro offs
  induction offs with
  | nil => intro data _ hne; exact absurd rfl hne
  | cons a tl ih =>
    intro data hok _
    cases tl with
    | nil => simp [recordsSpec]
    | cons b rest =>
      simp only [offsetsOK, Bool.and_eq_true, decide_eq_true_eq] at hok
      obtain ⟨⟨h1, _⟩, hok'⟩ := hok
      simp only [recordsSpec, List.flatten, List.headD_cons]
      rw [ih data hok' (by exact List.cons_ne_nil b rest), List.headD_cons,
        ← xorBytes_append, slice_append_drop data a b h1]

theorem dataSpec_length (k : Nat) (offs data : List Nat)
    (hok : offsetsOK offs data.length = true) :
    (dataSpec k offs data).length = data.length := by
  cases offs with
  | nil => rfl
  | cons a tl =>
    have ha : a ≤ data.length := offsetsOK_head_le hok
    simp only [dataSpec, List.length_append, List.length_take, xorBytes_length,
      List.length_drop, min_eq_left ha]
    omega

theorem dataSpec_drop_ge (k a x : Nat) (data : List Nat) (ha : a ≤ data.length)
    (hx : a ≤ x) :
    (data.take a ++ xorBytes k (data.drop a)).drop x = xorBytes k (data.drop x) := by
  have htl : (data.take a).length = a := by
    rw [List.length_take, min_eq_left ha]
  have h1 : (data.take a ++ xorBytes k (data.drop a)).drop x =
      ((data.take a ++ xorBytes k (data.drop a)).drop a).drop (x - a) := by
    rw [List.drop_drop, Nat.add_sub_cancel' hx]
  rw [h1, List.drop_left' htl, xorBytes_drop, List.drop_drop,
    Nat.add_sub_cancel' hx]

/-- Over data whose region from the first offset on is the `k`-XOR of
`data`, the `k`-XORed records are the raw records of `data`. -/
theorem recordsSpec_unxor (k : Nat) :
    ∀ (offs : List Nat) (data D : List Nat),
      offsetsOK offs data.length = true →
      (∀ x, offs.headD 0 ≤ x → D.drop x = xorBytes k (data.drop x)) →
      recordsSpec k offs D = recordsSpec 0 offs data := by
  intro offs
  induction offs with
  | nil => intro data D _ _; rfl
  | cons a tl ih =>
    intro data D hok hD
    cases tl with
    | nil =>
      simp only [recordsSpec]
      rw [hD a (by rw [List.headD_cons]), xorBytes_xorBytes, xorBytes_zero]
    | cons b rest =>
      simp only [offsetsOK, Bool.and_eq_true, decide_eq_true_eq] at hok
      obtain ⟨⟨h1, _⟩, hok'⟩ := hok
      simp only [recordsSpec]
      rw [hD a (by rw [List.headD_cons]), xorBytes_take, xorBytes_xorBytes,
        xorBytes_zero]
      rw [ih data D hok' fun x hx =>
        hD x (by rw [List.headD_cons]; rw [List.headD_cons] at hx; omega)]

/-- The in-place XOR restores the original data when applied twice. -/
theorem dataSpec_invol (k : Nat) (offs data : List Nat)
    (hok : offsetsOK offs data.length = true) :
    dataSpec k offs (dataSpec k offs data) = data := by
  cases offs with
  | nil => rfl
  | cons a tl =>
    have ha : a ≤ data.length := offsetsOK_head_le hok
    have htl : (data.take a).length = a := by
      rw [List.length_take, min_eq_left ha]
    simp only [dataSpec]
    rw [List.take_left' htl, List.drop_left' htl, xorBytes_xorBytes,
      List.take_append_drop]

theorem u16Chunks_length :
    ∀ (offs : List Nat) (u : List Nat) (cs : List (List Nat)),
      u16Chunks u offs = some cs → cs.length = offs.length := by
  intro offs
  induction offs with
  | nil => intro u cs h; simp only [u16Chunks] at h; cases h; rfl
  | cons a tl ih =>
    intro u cs h
    cases tl with
    | nil =>
      simp only [u16Chunks] at h
      cases hg : goSliceFrom u (a / 2) with
      | none => rw [hg] at h; cases h
      | some c => rw [hg] at h; cases h; rfl
    | cons b rest =>
      simp only [u16Chunks] at h
      cases hg : goSlice u (a / 2) (b / 2) with
      | none => rw [hg] at h; cases h
      | some c =>
        rw [hg] at h
        cases hr : u16Chunks u (b :: rest) with
        | none => rw [hr] at h; cases h
        | some cs' =>
          rw [hr] at h
          cases h
          simp only [List.length_cons, ih u cs' hr]

theorem u16Chunks_join :
    ∀ (offs : List Nat) (u : List Nat) (cs : List (List Nat)),
      u16Chunks u offs = some cs → offs ≠ [] →
      cs.flatten = u.drop (offs.headD 0 / 2) := by
  intro offs
  induction offs with
  | nil => intro u cs _ hne; exact absurd rfl hne
  | cons a tl ih =>
    intro u cs h _
    cases tl with
    | nil =>
      simp only [u16Chunks, goSliceFrom] at h
      by_cases ha : a / 2 ≤ u.length
      · rw [if_pos ha] at h
        cases h
        simp
      · rw [if_neg ha] at h; cases h
    | cons b rest =>
      simp only [u16Chunks, goSlice] at h
      by_cases hb : a / 2 ≤ b / 2 ∧ b / 2 ≤ u.length
      · rw [if_pos hb] at h
        cases hr : u16Chunks u (b :: rest) with
        | none => rw [hr] at h; cases h
        | some cs' =>
          rw [hr] at h
          cases h
          simp only [List.flatten, List.headD_cons]
          rw [ih u cs' hr (by exact List.cons_ne_nil b rest), List.headD_cons,
            slice_append_drop u (a / 2) (b / 2) hb.1]
      · rw [if_neg hb] at h; cases h

/-- Closed form of `Strings` at the `multiByteArray` level. -/
theorem Strings_eq (m : multiByteArray) (k : Nat) :
    m.Strings k =
      if offsetsOK m.offsets m.data.length = true then
        some (recordsSpec k m.offsets m.data,
          ⟨m.offsets, dataSpec k m.offsets m.data⟩)
      else none := by
  rw [multiByteArray.Strings, stringsLoop_eq]
  by_cases h : offsetsOK m.offsets m.data.length = true
  · rw [if_pos h, if_pos h]; rfl
  · rw [if_neg h, if_neg h]; rfl

/-- Re-running the `k`-XOR pass over the already-XORed data returns the raw
record slices of the original data. -/
theorem recordsSpec_dataSpec (k : Nat) (offs data : List Nat)
    (hok : offsetsOK offs data.length = true) :
    recordsSpec k offs (dataSpec k offs data) = recordsSpec 0 offs data := by
  cases offs with
  | nil => rfl
  | cons a tl =>
    apply recordsSpec_unxor k (a :: tl) data _ hok
    intro x hx
    rw [List.headD_cons] at hx
    simp only [dataSpec]
    exact dataSpec_drop_ge k a x data (offsetsOK_head_le hok) hx

theorem xor_ne_self (k b : Nat) (hk : k ≠ 0) : b ^^^ k ≠ b := by
  intro h
  apply hk
  calc k = b ^^^ (b ^^^ k) := by
        rw [← Nat.xor_assoc, Nat.xor_self, Nat.zero_xor]
    _ = b ^^^ b := by rw [h]
    _ = 0 := Nat.xor_self b

theorem xorBytes_ne (k : Nat) (l : List Nat) (hk : k ≠ 0) (hl : l ≠ []) :
    xorBytes k l ≠ l := by
  cases l with
  | nil => exact absurd rfl hl
  | cons c t =>
    intro h
    simp only [xorBytes, List.map_cons, List.cons.injEq] at h
    exact xor_ne_self k c hk h.1

/-- C6 — For every valid offset table and every XOR key `k ≠ 0`, applying
`Strings` with key `k` and then applying it again with key `k` returns the
original unobfuscated record bytes (`recordsSpec 0`, the raw slices of the
stored data), and the backing array is restored to the original: the
byte-wise XOR transformation is its own inverse. -/
theorem c6_xor_involution (m m1 m2 : multiByteArray) (k : Nat)
    (s1 s2 : List Bytes) (_hk : k ≠ 0)
    (h1 : m.Strings k = some (s1, m1)) (h2 : m1.Strings k = some (s2, m2)) :
    s2 = recordsSpec 0 m.offsets m.data ∧ m2 = m := by
  obtain ⟨offs, data⟩ := m
  rw [Strings_eq] at h1
  by_cases hok : offsetsOK offs data.length = true
  · rw [if_pos hok] at h1
    simp only [Option.some.injEq, Prod.mk.injEq] at h1
    obtain ⟨hs1, hm1⟩ := h1
    rw [← hm1, Strings_eq] at h2
    simp only [dataSpec_length k offs data hok, if_pos hok,
      Option.some.injEq, Prod.mk.injEq] at h2
    obtain ⟨hs2, hm2⟩ := h2
    constructor
    · rw [← hs2, recordsSpec_dataSpec k offs data hok]
    · rw [← hm2, dataSpec_invol k offs data hok]
  · rw [if_neg hok] at h1; cases h1

/-- Witness for C6 at a concrete table: data `[1, 2]`, key 5. -/
theorem c6_xor_involution_witness :
    ([[1, 2]] : List Bytes) = recordsSpec 0 [0] [1, 2] ∧
    (⟨[0], [1, 2]⟩ : multiByteArray) = ⟨[0], [1, 2]⟩ :=
  c6_xor_involution ⟨[0], [1, 2]⟩ ⟨[0], [4, 7]⟩ ⟨[0], [1, 2]⟩ 5 [[4, 7]] [[1, 2]]
    (by decide) (by decide) (by decide)

/-- C7 counterexample — an offset table whose first offset is not 0: the
text view succeeds with one (empty) record, but the concatenation of the
records is not the payload blob. -/
theorem c7_counterexample :
    multiByteArray.Strings ⟨[2], [7, 7]⟩ 0 = some ([[]], ⟨[2], [7, 7]⟩) ∧
    ([[]] : List Bytes).flatten ≠ [7, 7] := by decide

/-- C7 (amended) — whenever the text view and the word view both succeed,
each returns exactly one record per offset (the declared record count); and
if the table has at least one offset and the first offset is 0, the
concatenation of the text records is the payload blob as it stands after
the call (the original blob for key 0, since the XOR is applied in place),
and the concatenation of the word records is the full decoded word array. -/
theorem c7_record_count_and_concat (m m' : multiByteArray) (k : Nat)
    (strs : List Bytes) (cs : List (List Nat))
    (h1 : m.Strings k = some (strs, m')) (h2 : m.U16 = some cs) :
    strs.length = m.offsets.length ∧ cs.length = m.offsets.length ∧
    (m.offsets ≠ [] → m.offsets.headD 0 = 0 →
      strs.flatten = m'.data ∧ cs.flatten = decodeU16s m.data) := by
  obtain ⟨offs, data⟩ := m
  rw [Strings_eq] at h1
  by_cases hok : offsetsOK offs data.length = true
  · rw [if_pos hok] at h1
    simp only [Option.some.injEq, Prod.mk.injEq] at h1
    obtain ⟨hs, hm'⟩ := h1
    refine ⟨by rw [← hs, recordsSpec_length], u16Chunks_length offs _ cs h2, ?_⟩
    intro hne h0
    constructor
    · rw [← hs, ← hm', recordsSpec_join k offs data hok hne, h0]
      cases offs with
      | nil => exact absurd rfl hne
      | cons a tl =>
        rw [List.headD_cons] at h0
        subst h0
        simp [dataSpec]
    · rw [u16Chunks_join offs _ cs h2 hne, h0]
      simp
  · rw [if_neg hok] at h1; cases h1

/-- Witness for C7 at a concrete table: offsets `[0]`, data `[1, 2]`, key 5
(text records `[[4, 7]]`, word records `[[513]]`). -/
theorem c7_record_count_and_concat_witness :
    ([[4, 7]] : List Bytes).length = ([0] : List Nat).length ∧
    ([[513]] : List (List Nat)).length = ([0] : List Nat).length ∧
    ([[4, 7]] : List Bytes).flatten = [4, 7] ∧
    ([[513]] : List (List Nat)).flatten = decodeU16s [1, 2] := by
  have h := c7_record_count_and_concat ⟨[0], [1, 2]⟩ ⟨[0], [4, 7]⟩ 5
    [[4, 7]] [[513]] (by decide) (by decide)
  exact ⟨h.1, h.2.1, h.2.2 (by decide) (by decide)⟩

/-- C10 — With a non-zero key, `Strings` mutates the stored data in place:
the returned `multiByteArray`'s data differs from the original, and a second
call with the same key observes the already-transformed buffer, returning
the re-obfuscated raw bytes (`recordsSpec 0` of the original data), which
differ from the first call's output; the buffer is thereby restored. -/
theorem c10_strings_mutation (m m1 : multiByteArray) (k : Nat)
    (s1 : List Bytes) (hk : k ≠ 0) (h1 : m.Strings k = some (s1, m1))
    (hne : m.offsets ≠ []) (hlt : m.offsets.headD 0 < m.data.length) :
    m1.data ≠ m.data ∧
    m1.Strings k = some (recordsSpec 0 m.offsets m.data, m) ∧
    s1 ≠ recordsSpec 0 m.offsets m.data := by
  obtain ⟨offs, data⟩ := m
  rw [Strings_eq] at h1
  by_cases hok : offsetsOK offs data.length = true
  · rw [if_pos hok] at h1
    simp only [Option.some.injEq, Prod.mk.injEq] at h1
    obtain ⟨hs1, hm1⟩ := h1
    obtain ⟨a, tl, rfl⟩ : ∃ a tl, offs = a :: tl := by
      cases offs with
      | nil => exact absurd rfl hne
      | cons a tl => exact ⟨a, tl, rfl⟩
    rw [List.headD_cons] at hlt
    have hlt' : a < data.length := hlt
    have hdne : data.drop a ≠ [] := by
      intro hcon
      have := congrArg List.length hcon
      rw [List.length_drop] at this
      simp only [List.length_nil] at this
      omega
    have hxne : xorBytes k (data.drop a) ≠ data.drop a :=
      xorBytes_ne k (data.drop a) hk hdne
    refine ⟨?_, ?_, ?_⟩
    · rw [← hm1]
      simp only [dataSpec]
      intro hcon
      apply hxne
      have hsplit : data.take a ++ data.drop a = data :=
        List.take_append_drop a data
      exact List.append_cancel_left (hcon.trans hsplit.symm)
    · rw [← hm1, Strings_eq]
      simp only [dataSpec_length k (a :: tl) data hok, if_pos hok,
        Option.some.injEq, Prod.mk.injEq]
      exact ⟨recordsSpec_dataSpec k (a :: tl) data hok,
        by rw [dataSpec_invol k (a :: tl) data hok]⟩
    · rw [← hs1]
      intro hcon
      have hj := congrArg List.flatten hcon
      rw [recordsSpec_join k (a :: tl) data hok (List.cons_ne_nil a tl),
        recordsSpec_join 0 (a :: tl) data hok (List.cons_ne_nil a tl),
        xorBytes_zero] at hj
      rw [List.headD_cons] at hj
      exact hxne hj
  · rw [if_neg hok] at h1; cases h1

/-- Witness for C10 at a concrete table: offsets `[0]`, data `[1, 2]`,
key 5. -/
theorem c10_strings_mutation_witness :
    (⟨[0], [4, 7]⟩ : multiByteArray).data ≠
      (⟨[0], [1, 2]⟩ : multiByteArray).data ∧
    multiByteArray.Strings ⟨[0], [4, 7]⟩ 5 =
      some (recordsSpec 0 [0] [1, 2], ⟨[0], [1, 2]⟩) ∧
    ([[4, 7]] : List Bytes) ≠ recordsSpec 0 [0] [1, 2] :=
  c10_strings_mutation ⟨[0], [1, 2]⟩ ⟨[0], [4, 7]⟩ 5 [[4, 7]]
    (by decide) (by decide) (by decide) (by decide)

/-! ### Lemmas about `joinLevels` -/

theorem setDemo_length : ∀ (l : List Level) (d : Nat),
    (setDemo l d).length = l.length := by
  intro l
  induction l with
  | nil => intro d; rfl
  | cons lv rest ih =>
    intro d
    cases d with
    | zero => rfl
    | succ d => simp only [setDemo, List.length_cons, ih d]

theorem markDemos_length : ∀ (ds : List Nat) (l : List Level),
    (markDemos l ds).length = l.length := by
  intro ds
  induction ds with
  | nil => intro l; rfl
  | cons d rest ih =>
    intro l
    rw [markDemos, ih]
    by_cases hd : d < l.length
    · rw [if_pos hd, setDemo_length]
    · rw [if_neg hd]

theorem buildLevels_length (p c : List Bytes) (f : List (List Command)) :
    ∀ (names : List Bytes) (i : Nat),
      (buildLevels p c f i names).length = names.length := by
  intro names
  induction names with
  | nil => intro i; rfl
  | cons n rest ih =>
    intro i
    simp only [buildLevels, List.length_cons, ih (i + 1)]

theorem setDemo_Flow : ∀ (l : List Level) (d i : Nat),
    ((setDemo l d).getD i defLevel).Flow = ((l.getD i defLevel)).Flow := by
  intro l
  induction l with
  | nil => intro d i; rfl
  | cons lv rest ih =>
    intro d i
    cases d with
    | zero =>
      cases i with
      | zero => rfl
      | succ i => rfl
    | succ d =>
      cases i with
      | zero => rfl
      | succ i => simp only [setDemo, List.getD_cons_succ, ih d i]

theorem markDemos_Flow : ∀ (ds : List Nat) (l : List Level) (i : Nat),
    ((markDemos l ds).getD i defLevel).Flow = (l.getD i defLevel).Flow := by
  intro ds
  induction ds with
  | nil => intro l i; rfl
  | cons d rest ih =>
    intro l i
    rw [markDemos, ih]
    by_cases hd : d < l.length
    · rw [if_pos hd, setDemo_Flow]
    · rw [if_neg hd]

theorem setDemo_IsDemo : ∀ (l : List Level) (d i : Nat), i < l.length →
    ((setDemo l d).getD i defLevel).IsDemo =
      ((l.getD i defLevel).IsDemo || decide (i = d)) := by
  intro l
  induction l with
  | nil => intro d i hi; cases hi
  | cons lv rest ih =>
    intro d i hi
    cases d with
    | zero =>
      cases i with
      | zero => simp [setDemo]
      | succ i => simp [setDemo]
    | succ d =>
      cases i with
      | zero => simp [setDemo]
      | succ i =>
        simp only [setDemo, List.getD_cons_succ]
        rw [ih d i (by simpa using Nat.lt_of_succ_lt_succ hi)]
        have he : decide (i = d) = decide (i + 1 = d + 1) := by
          by_cases h : i = d
          · subst h; simp
          · have h2 : ¬ (i + 1 = d + 1) := by omega
            simp [h, h2]
        rw [he]

theorem markDemos_IsDemo : ∀ (ds : List Nat) (l : List Level) (i : Nat),
    i < l.length →
    ((markDemos l ds).getD i defLevel).IsDemo =
      ((l.getD i defLevel).IsDemo || decide (i ∈ ds)) := by
  intro ds
  induction ds with
  | nil => intro l i _; simp [markDemos]
  | cons d rest ih =>
    intro l i hi
    rw [markDemos]
    by_cases hd : d < l.length
    · rw [if_pos hd, ih (setDemo l d) i (by rw [setDemo_length]; exact hi),
        setDemo_IsDemo l d i hi]
      have he : (decide (i = d) || decide (i ∈ rest)) = decide (i ∈ d :: rest) := by
        by_cases h1 : i = d <;> by_cases h2 : i ∈ rest <;> simp [h1, h2]
      rw [Bool.or_assoc, he]
    · rw [if_neg hd, ih l i hi]
      have hne : ¬ (i = d) := by omega
      simp [hne]

theorem buildLevels_getD (p c : List Bytes) (f : List (List Command)) :
    ∀ (names : List Bytes) (j i : Nat), i < names.length →
      (buildLevels p c f j names).getD i defLevel =
        mkLevel p c f (j + i) (names.getD i []) := by
  intro names
  induction names with
  | nil => intro j i hi; cases hi
  | cons n rest ih =>
    intro j i hi
    cases i with
    | zero => simp [buildLevels]
    | succ i =>
      simp only [buildLevels, List.getD_cons_succ]
      rw [ih (j + 1) i (by simpa using Nat.lt_of_succ_lt_succ hi)]
      congr 1
      omega

theorem markDemos_filter : ∀ (ds : List Nat) (l : List Level),
    markDemos l ds = markDemos l (ds.filter fun d => decide (d < l.length)) := by
  intro ds
  induction ds with
  | nil => intro l; rfl
  | cons d rest ih =>
    intro l
    by_cases hd : d < l.length
    · rw [show (d :: rest).filter (fun d => decide (d < l.length)) =
          d :: rest.filter (fun d => decide (d < l.length)) by
        simp [List.filter_cons, hd]]
      simp only [markDemos]
      rw [if_pos hd, ih (setDemo l d)]
      simp only [setDemo_length]
    · rw [show (d :: rest).filter (fun d => decide (d < l.length)) =
          rest.filter (fun d => decide (d < l.length)) by
        simp [List.filter_cons, hd]]
      simp only [markDemos]
      rw [if_neg hd]
      exact ih l

/-- C5 — The decoded level list has exactly one `Level` per level-name
record, and level `i` receives the gameflow sequence at index `i + 1`
(`Read` invokes the sequence decoder with `levelCount + 1` records, so the
hypothesis `flow.length = names.length + 1` holds there; the leading
sequence at index 0 is never assigned to any level, since `i + 1 ≥ 1`). -/
theorem c5_level_count_and_flow (names paths chaps : List Bytes)
    (flow : List (List Command)) (demos : List Nat) (i : Nat)
    (hflow : flow.length = names.length + 1) (hi : i < names.length) :
    (joinLevels names paths chaps flow demos).length = names.length ∧
    ((joinLevels names paths chaps flow demos).getD i defLevel).Flow =
      flow.getD (i + 1) [] := by
  constructor
  · rw [joinLevels, markDemos_length, buildLevels_length]
  · rw [joinLevels, markDemos_Flow, buildLevels_getD paths chaps flow names 0 i hi]
    simp only [mkLevel, Nat.zero_add]
    rw [if_pos (by omega)]

/-- Witness for C5: one level, two gameflow records. -/
theorem c5_level_count_and_flow_witness :
    (joinLevels [[65]] [] [] [[], [{ Op := 9, Arg := 0 }]] []).length =
      ([[65]] : List Bytes).length ∧
    ((joinLevels [[65]] [] [] [[], [{ Op := 9, Arg := 0 }]] []).getD 0
        defLevel).Flow =
      ([[], [{ Op := 9, Arg := 0 }]] : List (List Command)).getD 1 [] :=
  c5_level_count_and_flow [[65]] [] [] [[], [{ Op := 9, Arg := 0 }]] [] 0
    (by decide) (by decide)

/-- C8 — A level's demo flag is set exactly when its index appears in the
demo-level index list, and out-of-range demo indices are silently ignored:
the join is unchanged if they are filtered out. -/
theorem c8_demo_marking (names paths chaps : List Bytes)
    (flow : List (List Command)) (demos : List Nat) (i : Nat)
    (hi : i < names.length) :
    (((joinLevels names paths chaps flow demos).getD i defLevel).IsDemo =
        true ↔ i ∈ demos) ∧
    joinLevels names paths chaps flow demos =
      joinLevels names paths chaps flow
        (demos.filter fun d => decide (d < names.length)) := by
  constructor
  · rw [joinLevels, markDemos_IsDemo demos _ i
      (by rw [buildLevels_length]; exact hi),
      buildLevels_getD paths chaps flow names 0 i hi]
    simp [mkLevel]
  · rw [joinLevels, joinLevels, markDemos_filter demos, buildLevels_length]

/-- Witness for C8: five levels with demo list `[2]`, and the out-of-range
demo list `[99]` equal to its filtered (empty) form. -/
theorem c8_demo_marking_witness :
    ((((joinLevels [[65], [66], [67], [68], [69]] [] [] [] [2]).getD 2
        defLevel).IsDemo = true ↔ (2 : Nat) ∈ [2]) ∧
      joinLevels [[65], [66], [67], [68], [69]] [] [] [] [2] =
        joinLevels [[65], [66], [67], [68], [69]] [] [] []
          ([2].filter fun d => decide (d < 5))) ∧
    ((((joinLevels [[65], [66], [67], [68], [69]] [] [] [] [99]).getD 0
        defLevel).IsDemo = true ↔ (0 : Nat) ∈ [99]) ∧
      joinLevels [[65], [66], [67], [68], [69]] [] [] [] [99] =
        joinLevels [[65], [66], [67], [68], [69]] [] [] []
          ([99].filter fun d => decide (d < 5))) :=
  ⟨c8_demo_marking [[65], [66], [67], [68], [69]] [] [] [] [2] 2 (by decide),
   c8_demo_marking [[65], [66], [67], [68], [69]] [] [] [] [99] 0 (by decide)⟩

/-- C4 — The instruction scan proceeds left to right: the empty word list
yields no instructions; a non-argument opcode consumes one word and yields
an argument-less instruction; an argument-bearing opcode consumes the
following word as its argument and the scan continues after BOTH words (the
argument word is never reinterpreted as an opcode); `[9, 9, 9]` (three
`OpEnd`) decodes to exactly three argument-less instructions. -/
theorem c4_instruction_scan :
    decodeChunk [] = some [] ∧
    (∀ y rest, hasArg y = false →
      decodeChunk (y :: rest) =
        (decodeChunk rest).map fun s => { Op := y, Arg := 0 } :: s) ∧
    (∀ x a rest, hasArg x = true →
      decodeChunk (x :: a :: rest) =
        (decodeChunk rest).map fun s => { Op := x, Arg := a } :: s) ∧
    decodeChunk [9, 9, 9] =
      some [{ Op := 9, Arg := 0 }, { Op := 9, Arg := 0 },
        { Op := 9, Arg := 0 }] := by
  refine ⟨rfl, ?_, ?_, by decide⟩
  · intro y rest h
    conv_lhs => rw [decodeChunk.eq_def]
    dsimp only
    rw [h]
    simp
  · intro x a rest h
    conv_lhs => rw [decodeChunk.eq_def]
    dsimp only
    rw [h]
    simp

/-- Witness for C4: `OpTrack` (10, argument-bearing) and `OpEnd` (9, no
argument). -/
theorem c4_instruction_scan_witness :
    decodeChunk [10, 34] =
      (decodeChunk []).map (fun s => { Op := 10, Arg := 34 } :: s) ∧
    decodeChunk [9] =
      (decodeChunk []).map fun s => { Op := 9, Arg := 0 } :: s :=
  ⟨c4_instruction_scan.2.2.1 10 34 [] (by decide),
   c4_instruction_scan.2.1 9 [] (by decide)⟩

/-- C9 — `FormatCommand`: a no-argument opcode formats as its display name
alone; `OpLoadPic` (12) renders the indexed level's chapter path, `OpFmv`
(3) the indexed FMV entry, `OpLevel` (4) the indexed level's path and name,
`OpCine` (5) the indexed cutscene entry; every other argument-bearing
opcode renders its raw numeric argument; an argument index past the
relevant table is the index-out-of-range failure (`none`). -/
theorem c9_format_command (s : Script) (c : Command) :
    (hasArg c.Op = false → FormatCommand s c = some (opcodeString c.Op)) ∧
    (c.Op = 12 → c.Arg < s.Levels.length →
      FormatCommand s c = some (opcodeString c.Op ++ sp ++ sq ++
        (s.Levels.getD c.Arg defLevel).Chapter ++ sq)) ∧
    (c.Op = 3 → c.Arg < s.Fmvs.length →
      FormatCommand s c = some (opcodeString c.Op ++ sp ++ sq ++
        s.Fmvs.getD c.Arg [] ++ sq)) ∧
    (c.Op = 4 → c.Arg < s.Levels.length →
      FormatCommand s c = some (opcodeString c.Op ++ sp ++ sq ++
        (s.Levels.getD c.Arg defLevel).Path ++ sq ++ sp ++ strBytes "(" ++
        (s.Levels.getD c.Arg defLevel).Name ++ strBytes ")")) ∧
    (c.Op = 5 → c.Arg < s.Cutscenes.length →
      FormatCommand s c = some (opcodeString c.Op ++ sp ++ sq ++
        s.Cutscenes.getD c.Arg [] ++ sq)) ∧
    (hasArg c.Op = true → c.Op ≠ 12 → c.Op ≠ 3 → c.Op ≠ 4 → c.Op ≠ 5 →
      FormatCommand s c = some (opcodeString c.Op ++ sp ++ natDec c.Arg)) ∧
    ((c.Op = 12 ∨ c.Op = 4) → s.Levels.length ≤ c.Arg →
      FormatCommand s c = none) ∧
    (c.Op = 3 → s.Fmvs.length ≤ c.Arg → FormatCommand s c = none) ∧
    (c.Op = 5 → s.Cutscenes.length ≤ c.Arg → FormatCommand s c = none) := by
  refine ⟨?_, ?_, ?_, ?_, ?_, ?_, ?_, ?_, ?_⟩
  · intro h
    simp [FormatCommand, h]
  · intro hop h
    simp [FormatCommand, hop, h, (by decide : hasArg 12 = true)]
  · intro hop h
    simp [FormatCommand, hop, h, (by decide : hasArg 3 = true)]
  · intro hop h
    simp [FormatCommand, hop, h, (by decide : hasArg 4 = true)]
  · intro hop h
    simp [FormatCommand, hop, h, (by decide : hasArg 5 = true)]
  · intro h h12 h3 h4 h5
    simp [FormatCommand, h, h12, h3, h4, h5]
  · intro hor hlen
    have hlt : ¬ (c.Arg < s.Levels.length) := by omega
    rcases hor with hop | hop
    · simp [FormatCommand, hop, hlt, (by decide : hasArg 12 = true)]
    · simp [FormatCommand, hop, hlt, (by decide : hasArg 4 = true)]
  · intro hop hlen
    have hlt : ¬ (c.Arg < s.Fmvs.length) := by omega
    simp [FormatCommand, hop, hlt, (by decide : hasArg 3 = true)]
  · intro hop hlen
    have hlt : ¬ (c.Arg < s.Cutscenes.length) := by omega
    simp [FormatCommand, hop, hlt, (by decide : hasArg 5 = true)]

/-- Witness for C9 on a one-level script: `OpEnd` (no argument), `OpLevel`
in range, `OpFmv` out of range (empty FMV table), `OpTrack` (raw numeric
argument). -/
theorem c9_format_command_witness :
    FormatCommand
        { Version := 0, Description := [],
          Levels := [{ Name := strBytes "Jungle",
                       Path := strBytes "jungle.TR2",
                       Chapter := strBytes "india.bmp" }],
          Titles := [], Fmvs := [], Cutscenes := [], GameStrings := [],
          ExtraStrings := [] }
        { Op := 9, Arg := 0 } = some (opcodeString 9) ∧
    FormatCommand
        { Version := 0, Description := [],
          Levels := [{ Name := strBytes "Jungle",
                       Path := strBytes "jungle.TR2",
                       Chapter := strBytes "india.bmp" }],
          Titles := [], Fmvs := [], Cutscenes := [], GameStrings := [],
          ExtraStrings := [] }
        { Op := 4, Arg := 0 } =
      some (opcodeString 4 ++ sp ++ sq ++ strBytes "jungle.TR2" ++ sq ++ sp ++
        strBytes "(" ++ strBytes "Jungle" ++ strBytes ")") ∧
    FormatCommand
        { Version := 0, Description := [],
          Levels := [{ Name := strBytes "Jungle",
                       Path := strBytes "jungle.TR2",
                       Chapter := strBytes "india.bmp" }],
          Titles := [], Fmvs := [], Cutscenes := [], GameStrings := [],
          ExtraStrings := [] }
        { Op := 3, Arg := 0 } = none ∧
    FormatCommand
        { Version := 0, Description := [],
          Levels := [{ Name := strBytes "Jungle",
                       Path := strBytes "jungle.TR2",
                       Chapter := strBytes "india.bmp" }],
          Titles := [], Fmvs := [], Cutscenes := [], GameStrings := [],
          ExtraStrings := [] }
        { Op := 10, Arg := 34 } =
      some (opcodeString 10 ++ sp ++ natDec 34) := by
  refine ⟨?_, ?_, ?_, ?_⟩
  · exact (c9_format_command _ _).1 (by decide)
  · exact (c9_format_command _ _).2.2.2.1 rfl (by decide)
  · exact (c9_format_command _ _).2.2.2.2.2.2.2.1 rfl (by decide)
  · exact (c9_format_command _ _).2.2.2.2.2.1 (by decide) (by decide)
      (by decide) (by decide) (by decide)

set_option maxRecDepth 10000 in
/-- C1 — evaluation at the failing input: decoding an empty byte source
(cut off before the 390-byte header is complete) does NOT fail; every
`binary.Read` error is discarded, the header keeps its zero value, and
`Read` returns a zero-populated `Script` (the 41-entry extra-strings table
is read as 41 empty strings).  This contradicts the claimed `TruncatedInput`
propagation and the claim that no partially-populated `Script` is
returned. -/
theorem c1_truncated_input_returns_script :
    Read [] = some
      { Version := 0, Description := List.replicate 256 0, Levels := [],
        Titles := [], Fmvs := [], Cutscenes := [], GameStrings := [],
        ExtraStrings := List.replicate 41 [] } := by decide

/-- C2 — evaluation at the failing input: opcode 0 (`OpPicture`) is
argument-bearing, and a word-record chunk `[0]` ending in it makes the scan
read `chunk[i+1]` out of range — a runtime panic (`none` in the embedding),
not an `UnterminatedInstruction` decode failure; likewise through
`readSequenceArray` on the wire bytes `[0,0, 2,0, 0,0]` (one offset 0, size
2, blob `[0,0]`, i.e. the single chunk `[0]`). -/
theorem c2_unterminated_instruction_panics :
    hasArg 0 = true ∧ decodeChunk [0] = none ∧
    readSequenceArray 1 [0, 0, 2, 0, 0, 0] = none := by decide

/-- C3 — evaluation at the failing inputs: a record whose slice bounds
exceed the blob (`offsets [0, 5]`, blob `[1, 2]`) makes `Strings` panic
(`none` in the embedding) rather than fail with a `MalformedOffsetTable`
decode error; and a non-even offset (`offsets [1]`, blob `[7, 7]`) is
silently floor-divided by the word view (`1/2 = 0`), succeeding with the
whole word array instead of failing. -/
theorem c3_offset_table_panic_or_silent :
    multiByteArray.Strings ⟨[0, 5], [1, 2]⟩ 0 = none ∧
    multiByteArray.U16 ⟨[1], [7, 7]⟩ = some [[1799]] := by decide

end Tombflow
